import Mathlib

/-!
Shallow embedding of the static analysis engine of `src/lib/ai-service.ts`
(class `CodeAnalyzer`): the pattern catalogs, the per-file scanner
`analyzeFile`, the aggregator `analyzeFiles`, and the derived security and
coverage summaries.  File contents are modelled as `List Char`; the
JavaScript regexes of the catalog are embedded as executable matchers that
mirror the regex source text combinator by combinator (greedy repetition,
left-first alternation, backtracking order = candidate-list order).
-/

set_option maxRecDepth 10000

namespace Sniff

/-- Characters of the JavaScript regex class `\s`, by code point. -/
def jsSpace (c : Char) : Bool :=
  let n := c.toNat
  n == 9 || n == 10 || n == 11 || n == 12 || n == 13 || n == 32 ||
  n == 160 || n == 5760 || (decide (8192 ≤ n) && decide (n ≤ 8202)) ||
  n == 8232 || n == 8233 || n == 8239 || n == 8287 || n == 12288 || n == 65279

/-- Characters matched by the JavaScript regex `.` (no `s` flag): everything
except line terminators. -/
def jsDot (c : Char) : Bool :=
  !(c.toNat == 10 || c.toNat == 13 || c.toNat == 8232 || c.toNat == 8233)

/-- Characters of the JavaScript regex class `\w`. -/
def wordChar (c : Char) : Bool :=
  (decide ('a' ≤ c) && decide (c ≤ 'z')) || (decide ('A' ≤ c) && decide (c ≤ 'Z')) ||
  (decide ('0' ≤ c) && decide (c ≤ '9')) || c == '_'

/-- Characters of the class `[a-zA-Z_$]` (identifier start, naming rule). -/
def identStart (c : Char) : Bool :=
  (decide ('a' ≤ c) && decide (c ≤ 'z')) || (decide ('A' ≤ c) && decide (c ≤ 'Z')) ||
  c == '_' || c == '$'

/-- Characters of the class `[a-zA-Z0-9_$]` (identifier tail, naming rule). -/
def identChar (c : Char) : Bool :=
  identStart c || (decide ('0' ≤ c) && decide (c ≤ '9'))

/-- Left brace character, written by code point. -/
def lbrace : Char := Char.ofNat 123

/-- Right brace character, written by code point. -/
def rbrace : Char := Char.ofNat 125

/-- Single-quote character, written by code point. -/
def squote : Char := Char.ofNat 39

/-- JavaScript `String.prototype.split` with a one-character separator:
always returns at least one (possibly empty) segment, and a trailing
separator yields a trailing empty segment. -/
def splitOnChar (sep : Char) : List Char → List (List Char)
  | [] => [[]]
  | c :: cs =>
    match splitOnChar sep cs with
    | [] => [[c]]
    | l :: ls => if c = sep then [] :: l :: ls else (c :: l) :: ls

/-- JavaScript `String.prototype.trim`: strip `\s` characters from both ends. -/
def trimChars (cs : List Char) : List Char :=
  ((cs.dropWhile jsSpace).reverse.dropWhile jsSpace).reverse

/-- Length of the maximal run of characters satisfying `p` starting at
position `i`. -/
def runLen (p : Char → Bool) (cs : List Char) (i : ℕ) : ℕ :=
  ((cs.drop i).takeWhile p).length

/-- Case-insensitive literal match (regex `i` flag, ASCII case folding as in
the source patterns): on success returns the position just past the literal. -/
def litCI : List Char → List Char → ℕ → Option ℕ
  | [], _, i => some i
  | p :: ps, cs, i =>
    match cs[i]? with
    | some c => if c.toLower = p.toLower then litCI ps cs (i + 1) else none
    | none => none

/-- Candidate end positions (in backtracking preference order) for a
case-insensitive literal: at most one. -/
def litEnds (p : List Char) (cs : List Char) (i : ℕ) : List ℕ :=
  match litCI p cs i with
  | some j => [j]
  | none => []

/-- Candidate end positions for a greedy `X*` over a character class:
longest first, down to the empty repetition. -/
def starEnds (p : Char → Bool) (cs : List Char) (i : ℕ) : List ℕ :=
  let r := runLen p cs i
  (List.range (r + 1)).map (fun d => i + r - d)

/-- Candidate end positions for a greedy `X+` over a character class:
longest first, at least one character. -/
def plusEnds (p : Char → Bool) (cs : List Char) (i : ℕ) : List ℕ :=
  let r := runLen p cs i
  (List.range r).map (fun d => i + r - d)

/-- Candidate end position for a single character of a class. -/
def charEnds (p : Char → Bool) (cs : List Char) (i : ℕ) : List ℕ :=
  match cs[i]? with
  | some c => if p c then [i + 1] else []
  | none => []

/-- The regex anchor `$` (no `m` flag): matches the empty string exactly at
the end of the input. -/
def anchorEnd (cs : List Char) (i : ℕ) : List ℕ :=
  if i = cs.length then [i] else []

/-- Sequencing of candidate positions: regex concatenation, preserving
backtracking preference order. -/
def seqEnds (xs : List ℕ) (f : ℕ → List ℕ) : List ℕ :=
  xs.flatMap f

/-- Sequencing into a capturing continuation. -/
def seqCap (xs : List ℕ) (f : ℕ → List (ℕ × List Char)) : List (ℕ × List Char) :=
  xs.flatMap f

/-- Substring of `cs` from position `a` (inclusive) to `b` (exclusive), as in
JavaScript `substring`. -/
def sliceCS (cs : List Char) (a b : ℕ) : List Char :=
  (cs.take b).drop a

/-- Scan loop of `String.prototype.matchAll` for a regex with the `g` flag:
at each position try the matcher; on a match record its start index and
resume at the match end (advancing by one on an empty match), otherwise
advance by one.  `fuel` bounds the number of iterations. -/
def scanFrom (m : List Char → ℕ → List ℕ) (cs : List Char) : ℕ → ℕ → List ℕ
  | 0, _ => []
  | fuel + 1, i =>
    if i > cs.length then []
    else
      match m cs i with
      | [] => scanFrom m cs fuel (i + 1)
      | e :: _ => i :: scanFrom m cs fuel (if i < e then e else i + 1)

/-- Start indices of all matches of `m` in `cs`, in `matchAll` order. -/
def scanMatches (m : List Char → ℕ → List ℕ) (cs : List Char) : List ℕ :=
  scanFrom m cs (cs.length + 2) 0

/-- Variant of `scanFrom` for a matcher with one capture group. -/
def scanCapFrom (m : List Char → ℕ → List (ℕ × List Char)) (cs : List Char) :
    ℕ → ℕ → List (ℕ × List Char)
  | 0, _ => []
  | fuel + 1, i =>
    if i > cs.length then []
    else
      match m cs i with
      | [] => scanCapFrom m cs fuel (i + 1)
      | (e, cap) :: _ => (i, cap) :: scanCapFrom m cs fuel (if i < e then e else i + 1)

/-- Start indices and captures of all matches, in `matchAll` order. -/
def scanCaptures (m : List Char → ℕ → List (ℕ × List Char)) (cs : List Char) :
    List (ℕ × List Char) :=
  scanCapFrom m cs (cs.length + 2) 0

/-- Number of matches of `m` in `cs` (JavaScript `String.prototype.match`
with the `g` flag returns the array of all matches; the source only takes
its length). -/
def countRe (m : List Char → ℕ → List ℕ) (cs : List Char) : ℕ :=
  (scanMatches m cs).length

/-! Matchers for the catalog regexes, combinator by combinator. -/

/-- Matcher for `/eval\s*\(/gi`. -/
def evalRe (cs : List Char) (i : ℕ) : List ℕ :=
  seqEnds (litEnds "eval".data cs i) fun j =>
  seqEnds (starEnds jsSpace cs j) fun k =>
  charEnds (fun c => c == '(') cs k

/-- Matcher for `/innerHTML\s*=\s*[^;]+\+/gi`. -/
def innerHTMLRe (cs : List Char) (i : ℕ) : List ℕ :=
  seqEnds (litEnds "innerHTML".data cs i) fun j =>
  seqEnds (starEnds jsSpace cs j) fun k =>
  seqEnds (charEnds (fun c => c == '=') cs k) fun l =>
  seqEnds (starEnds jsSpace cs l) fun m =>
  seqEnds (plusEnds (fun c => !(c == ';')) cs m) fun n =>
  charEnds (fun c => c == '+') cs n

/-- Matcher for `/document\.write\s*\(/gi` (the `\.` is a literal dot). -/
def documentWriteRe (cs : List Char) (i : ℕ) : List ℕ :=
  seqEnds (litEnds "document.write".data cs i) fun j =>
  seqEnds (starEnds jsSpace cs j) fun k =>
  charEnds (fun c => c == '(') cs k

/-- Matcher for `/SELECT\s+.*\s+FROM\s+.*\s+WHERE\s+.*\+/gi`. -/
def sqlInjectionRe (cs : List Char) (i : ℕ) : List ℕ :=
  seqEnds (litEnds "SELECT".data cs i) fun j =>
  seqEnds (plusEnds jsSpace cs j) fun k =>
  seqEnds (starEnds jsDot cs k) fun l =>
  seqEnds (plusEnds jsSpace cs l) fun m =>
  seqEnds (litEnds "FROM".data cs m) fun n =>
  seqEnds (plusEnds jsSpace cs n) fun o =>
  seqEnds (starEnds jsDot cs o) fun p =>
  seqEnds (plusEnds jsSpace cs p) fun q =>
  seqEnds (litEnds "WHERE".data cs q) fun r =>
  seqEnds (plusEnds jsSpace cs r) fun s =>
  seqEnds (starEnds jsDot cs s) fun t =>
  charEnds (fun c => c == '+') cs t

/-- Quote class `["']` of the hardcoded-password regex. -/
def quoteChar (c : Char) : Bool :=
  c == '"' || c == squote

/-- Matcher for the hardcoded-password regex (quote, one or more non-quote
characters, quote, after `password\s*=\s*`). -/
def passwordRe (cs : List Char) (i : ℕ) : List ℕ :=
  seqEnds (litEnds "password".data cs i) fun j =>
  seqEnds (starEnds jsSpace cs j) fun k =>
  seqEnds (charEnds (fun c => c == '=') cs k) fun l =>
  seqEnds (starEnds jsSpace cs l) fun m =>
  seqEnds (charEnds quoteChar cs m) fun n =>
  seqEnds (plusEnds (fun c => !quoteChar c) cs n) fun o =>
  charEnds quoteChar cs o

/-- Matcher for `/Math\.random$$$$/gi` exactly as written in the source: the
literal `Math.random` followed by four `$` end-of-input anchors (the regex
text contains no escaped parentheses, so a call `Math.random()` is not
matched; only an input ending in `Math.random` is). -/
def mathRandomRe (cs : List Char) (i : ℕ) : List ℕ :=
  seqEnds (litEnds "Math.random".data cs i) fun j =>
  seqEnds (anchorEnd cs j) fun k =>
  seqEnds (anchorEnd cs k) fun l =>
  seqEnds (anchorEnd cs l) fun m =>
  anchorEnd cs m

/-- Matcher for `/console\.log\s*\(/gi`. -/
def consoleLogRe (cs : List Char) (i : ℕ) : List ℕ :=
  seqEnds (litEnds "console.log".data cs i) fun j =>
  seqEnds (starEnds jsSpace cs j) fun k =>
  charEnds (fun c => c == '(') cs k

/-- Matcher for `/debugger;/gi`. -/
def debuggerRe (cs : List Char) (i : ℕ) : List ℕ :=
  litEnds "debugger;".data cs i

/-- Matcher for `/TODO|FIXME|HACK/gi` (left-first alternation). -/
def todoRe (cs : List Char) (i : ℕ) : List ℕ :=
  litEnds "TODO".data cs i ++ litEnds "FIXME".data cs i ++ litEnds "HACK".data cs i

/-- Matcher (with capture) for `/function\s+(\w+)\s*$$[^)]*$$\s*{/gi` exactly
as written in the source: after the captured name come two `$` end-of-input
anchors, the class `[^)]*`, two more `$` anchors, optional whitespace and a
literal `{` (the regex text contains no escaped parentheses). -/
def functionReC (cs : List Char) (i : ℕ) : List (ℕ × List Char) :=
  seqCap (litEnds "function".data cs i) fun j =>
  seqCap (plusEnds jsSpace cs j) fun k =>
  seqCap (plusEnds wordChar cs k) fun l =>
  (seqEnds (starEnds jsSpace cs l) fun m =>
   seqEnds (anchorEnd cs m) fun n =>
   seqEnds (anchorEnd cs n) fun o =>
   seqEnds (starEnds (fun c => !(c == ')')) cs o) fun p =>
   seqEnds (anchorEnd cs p) fun q =>
   seqEnds (anchorEnd cs q) fun r =>
   seqEnds (starEnds jsSpace cs r) fun s =>
   charEnds (fun c => c == lbrace) cs s).map fun e => (e, sliceCS cs k l)

/-- Matcher (with capture) for the variable-declaration regex
`/(?:var|let|const)\s+([a-zA-Z_$][a-zA-Z0-9_$]*)/gi`. -/
def varDeclRe (cs : List Char) (i : ℕ) : List (ℕ × List Char) :=
  seqCap (litEnds "var".data cs i ++ litEnds "let".data cs i ++
          litEnds "const".data cs i) fun j =>
  seqCap (plusEnds jsSpace cs j) fun k =>
  (seqEnds (charEnds identStart cs k) fun l =>
   starEnds identChar cs l).map fun e => (e, sliceCS cs k e)

/-- Matcher for the complexity-keyword regex `/if|for|while|switch|catch/gi`
used for the aggregate complexity metric. -/
def keywordRe (cs : List Char) (i : ℕ) : List ℕ :=
  litEnds "if".data cs i ++ litEnds "for".data cs i ++ litEnds "while".data cs i ++
  litEnds "switch".data cs i ++ litEnds "catch".data cs i

/-- Matcher for the complexity-indicator regex
`/if|for|while|switch|catch|\?|&&|\|\|/gi` used inside `analyzeComplexity`. -/
def indicatorRe (cs : List Char) (i : ℕ) : List ℕ :=
  litEnds "if".data cs i ++ litEnds "for".data cs i ++ litEnds "while".data cs i ++
  litEnds "switch".data cs i ++ litEnds "catch".data cs i ++
  charEnds (fun c => c == '?') cs i ++ litEnds "&&".data cs i ++ litEnds "||".data cs i

/-! Data model of the analysis result, mirroring the interfaces of the
source file. -/

/-- Input record: `{ name, path, content }`. -/
structure SrcFile where
  name : String
  path : String
  content : String
deriving DecidableEq, Repr

/-- The `severity` enumeration. -/
inductive Severity
  | critical
  | high
  | medium
  | low
deriving DecidableEq, Repr

/-- The `category` enumeration. -/
inductive Category
  | security
  | quality
  | performance
  | maintainability
deriving DecidableEq, Repr

/-- The `Finding` interface (the optional `column` is never set by the
analyzer and is omitted). -/
structure Finding where
  id : String
  title : String
  description : String
  category : Category
  severity : Severity
  file : String
  line : ℕ
  codeSnippet : String
  recommendation : String
  rule : String
deriving DecidableEq, Repr

/-- The `CodeMetrics` interface; `languages` is an insertion-ordered
association list, as a JavaScript object used as a counter map. -/
structure CodeMetrics where
  totalLines : ℕ
  totalFiles : ℕ
  languages : List (String × ℕ)
  complexity : ℕ
  duplicateLines : ℕ
  testFiles : ℕ
deriving DecidableEq, Repr

/-- The `SecurityVulnerability` interface. -/
structure SecurityVulnerability where
  title : String
  description : String
  severity : Severity
  file : String
  line : ℕ
  cweId : ℕ
  recommendation : String
deriving DecidableEq, Repr

/-- The `SecurityAnalysis` interface. -/
structure SecurityAnalysis where
  critical : ℕ
  high : ℕ
  medium : ℕ
  low : ℕ
  vulnerabilities : List SecurityVulnerability
deriving DecidableEq, Repr

/-- JavaScript numbers as used by the coverage computation: a rational, the
value `NaN` (from `0/0`), or `Infinity` (from `n/0`, `n > 0`). -/
inductive JSNum
  | num (q : ℚ)
  | nan
  | inf
deriving DecidableEq, Repr

/-- JavaScript addition of a number to a `JSNum` (`NaN` and `Infinity`
propagate; the second operand is always an ordinary number here). -/
def jsAdd : JSNum → ℚ → JSNum
  | .num a, b => .num (a + b)
  | .nan, _ => .nan
  | .inf, _ => .inf

/-- JavaScript multiplication by a positive constant. -/
def jsMulC : JSNum → ℚ → JSNum
  | .num a, b => .num (a * b)
  | .nan, _ => .nan
  | .inf, _ => .inf

/-- JavaScript `Math.max(x, c)` for a finite constant `c`: `NaN` propagates. -/
def jsMaxC : JSNum → ℚ → JSNum
  | .num a, b => .num (max a b)
  | .nan, _ => .nan
  | .inf, _ => .inf

/-- JavaScript `Math.min(x, c)` for a finite constant `c`: `NaN` propagates,
`Infinity` is clamped to `c`. -/
def jsMinC : JSNum → ℚ → JSNum
  | .num a, b => .num (min a b)
  | .nan, _ => .nan
  | .inf, b => .num b

/-- JavaScript `Math.floor` on a `JSNum`. -/
def jsFloor : JSNum → JSNum
  | .num a => .num (⌊a⌋ : ℤ)
  | .nan => .nan
  | .inf => .inf

/-- JavaScript division `testFiles / totalFiles` on nonnegative integers:
`0 / 0 = NaN`, `n / 0 = Infinity` for `n > 0`. -/
def jsDivNat (a b : ℕ) : JSNum :=
  if b = 0 then (if a = 0 then .nan else .inf) else .num ((a : ℚ) / (b : ℚ))

/-- Per-file entry of the `CoverageAnalysis` interface. -/
structure FileCoverage where
  path : String
  coverage : JSNum
  lines : JSNum
  functions : JSNum
deriving DecidableEq, Repr

/-- The `CoverageAnalysis` interface. -/
structure CoverageAnalysis where
  overall : JSNum
  lines : JSNum
  functions : JSNum
  branches : JSNum
  files : List FileCoverage
deriving DecidableEq, Repr

/-- The `AnalysisResult` interface. -/
structure AnalysisResult where
  findings : List Finding
  metrics : CodeMetrics
  security : SecurityAnalysis
  coverage : CoverageAnalysis
deriving DecidableEq, Repr

/-- Entry of the `securityPatterns` catalog. -/
structure SecurityRule where
  matcher : List Char → ℕ → List ℕ
  title : String
  description : String
  severity : Severity
  cweId : ℕ
  recommendation : String

/-- Entry of the `qualityPatterns` catalog. -/
structure QualityRule where
  matcher : List Char → ℕ → List ℕ
  title : String
  description : String
  severity : Severity
  recommendation : String

/-- The `securityPatterns` catalog, in source order. -/
def securityPatterns : List SecurityRule :=
  [{ matcher := evalRe, title := "Use of eval()",
     description := "Use of eval() can lead to code injection vulnerabilities",
     severity := .high, cweId := 95,
     recommendation := "Avoid using eval(). Use safer alternatives like JSON.parse() for data parsing." },
   { matcher := innerHTMLRe, title := "Potential XSS via innerHTML",
     description := "Dynamic content assignment to innerHTML without sanitization",
     severity := .high, cweId := 79,
     recommendation := "Use textContent or sanitize HTML content before assignment." },
   { matcher := documentWriteRe, title := "Use of document.write()",
     description := "document.write() can be exploited for XSS attacks",
     severity := .medium, cweId := 79,
     recommendation := "Use modern DOM manipulation methods instead of document.write()." },
   { matcher := sqlInjectionRe, title := "Potential SQL Injection",
     description := "SQL query construction using string concatenation",
     severity := .critical, cweId := 89,
     recommendation := "Use parameterized queries or prepared statements." },
   { matcher := passwordRe, title := "Hardcoded Password",
     description := "Password appears to be hardcoded in source code",
     severity := .high, cweId := 798,
     recommendation := "Store passwords in environment variables or secure configuration." },
   { matcher := mathRandomRe, title := "Weak Random Number Generation",
     description := "Math.random() is not cryptographically secure",
     severity := .medium, cweId := 338,
     recommendation := "Use crypto.getRandomValues() for security-sensitive random numbers." }]

/-- The `qualityPatterns` catalog, in source order. -/
def qualityPatterns : List QualityRule :=
  [{ matcher := consoleLogRe, title := "Console Statement",
     description := "Console statements should be removed from production code",
     severity := .low,
     recommendation := "Remove console statements or use proper logging framework." },
   { matcher := debuggerRe, title := "Debugger Statement",
     description := "Debugger statements should not be present in production code",
     severity := .medium,
     recommendation := "Remove debugger statements before deployment." },
   { matcher := todoRe, title := "TODO/FIXME Comment",
     description := "Unresolved TODO or FIXME comment found",
     severity := .low,
     recommendation := "Address TODO/FIXME comments or create proper issue tracking." }]

/-- Newline character. -/
def nlChar : Char := '\n'

/-- `getLineNumber`: 1 + the number of newlines before `index`
(`content.substring(0, index).split("\n").length`). -/
def getLineNumber (cs : List Char) (index : ℕ) : ℕ :=
  ((cs.take index).filter (fun c => c == nlChar)).length + 1

/-- Join a list of lines with newlines (inverse of splitting). -/
def joinLines : List (List Char) → List Char
  | [] => []
  | [l] => l
  | l :: ls => l ++ nlChar :: joinLines ls

/-- `getCodeSnippet` with the default context of 2: lines
`max(0, line-3) .. min(count, line+2)` joined with newlines. -/
def getCodeSnippet (lines : List (List Char)) (lineNumber : ℕ) : String :=
  let start := lineNumber - 3
  let stop := min lines.length (lineNumber + 2)
  String.mk (joinLines ((lines.take stop).drop start))

/-- Replace every maximal whitespace run by one `rep` character (JavaScript
`replace(/\s+/g, rep)`); `inRun` tracks an open run. -/
def wsRunsTo (rep : Char) : Bool → List Char → List Char
  | _, [] => []
  | inRun, c :: cs =>
    if jsSpace c then
      (if inRun then wsRunsTo rep true cs else rep :: wsRunsTo rep true cs)
    else c :: wsRunsTo rep false cs

/-- `title.replace(/\s+/g, "_")`, used for finding ids. -/
def underscoreTitle (t : String) : String :=
  String.mk (wsRunsTo '_' false t.data)

/-- `title.toLowerCase().replace(/\s+/g, "-")`, used for rule slugs. -/
def slugTitle (t : String) : String :=
  String.mk (wsRunsTo '-' false (t.data.map Char.toLower))

/-- Security-rule findings of one file (first loop of `analyzeFile`). -/
def securityFindingsOf (file : SrcFile) : List Finding :=
  let cs := file.content.data
  let lines := splitOnChar nlChar cs
  securityPatterns.flatMap fun p =>
    (scanMatches p.matcher cs).map fun idx =>
      let lineNumber := getLineNumber cs idx
      { id := file.path ++ "_" ++ toString lineNumber ++ "_" ++ underscoreTitle p.title,
        title := p.title, description := p.description, category := .security,
        severity := p.severity, file := file.path, line := lineNumber,
        codeSnippet := getCodeSnippet lines lineNumber,
        recommendation := p.recommendation, rule := slugTitle p.title }

/-- Quality-rule findings of one file (second loop of `analyzeFile`). -/
def qualityFindingsOf (file : SrcFile) : List Finding :=
  let cs := file.content.data
  let lines := splitOnChar nlChar cs
  qualityPatterns.flatMap fun p =>
    (scanMatches p.matcher cs).map fun idx =>
      let lineNumber := getLineNumber cs idx
      { id := file.path ++ "_" ++ toString lineNumber ++ "_" ++ underscoreTitle p.title,
        title := p.title, description := p.description, category := .quality,
        severity := p.severity, file := file.path, line := lineNumber,
        codeSnippet := getCodeSnippet lines lineNumber,
        recommendation := p.recommendation, rule := slugTitle p.title }

/-- Loop body of `findFunctionEnd`: brace-depth counting with the
`inFunction` flag, returning `cs.length` when the depth never returns to
zero. -/
def findFunctionEndGo (cs : List Char) : List Char → ℕ → ℤ → Bool → ℕ
  | [], _, _, _ => cs.length
  | c :: rest, i, braceCount, inFunction =>
    if c == lbrace then findFunctionEndGo cs rest (i + 1) (braceCount + 1) true
    else if c == rbrace then
      (if inFunction && braceCount - 1 == 0 then i
       else findFunctionEndGo cs rest (i + 1) (braceCount - 1) inFunction)
    else findFunctionEndGo cs rest (i + 1) braceCount inFunction

/-- `findFunctionEnd(content, startIndex)`. -/
def findFunctionEnd (cs : List Char) (startIndex : ℕ) : ℕ :=
  findFunctionEndGo cs (cs.drop startIndex) startIndex 0 false

/-- `analyzeComplexity`: for every match of the function regex, count
complexity indicators inside the brace-delimited body and report high
complexity above 10 (severity high above 20). -/
def analyzeComplexity (file : SrcFile) : List Finding :=
  let cs := file.content.data
  let lines := splitOnChar nlChar cs
  (scanCaptures functionReC cs).flatMap fun m =>
    let lineNumber := getLineNumber cs m.1
    let functionName := String.mk m.2
    let functionEnd := findFunctionEnd cs m.1
    let functionCode := sliceCS cs m.1 functionEnd
    let complexity := countRe indicatorRe functionCode
    if complexity > 10 then
      [{ id := file.path ++ "_" ++ toString lineNumber ++ "_complexity",
         title := "High Cyclomatic Complexity",
         description := "Function " ++ squote.toString ++ functionName ++ squote.toString ++
           " has high complexity (" ++ toString complexity ++ ")",
         category := .maintainability,
         severity := if complexity > 20 then .high else .medium,
         file := file.path, line := lineNumber,
         codeSnippet := getCodeSnippet lines lineNumber,
         recommendation := "Consider breaking this function into smaller, more focused functions.",
         rule := "cyclomatic-complexity" }]
    else []

/-- `analyzeNaming`: single-letter variable names outside the allow-list. -/
def analyzeNaming (file : SrcFile) : List Finding :=
  let cs := file.content.data
  let lines := splitOnChar nlChar cs
  (scanCaptures varDeclRe cs).flatMap fun m =>
    let variableName := String.mk m.2
    let lineNumber := getLineNumber cs m.1
    if variableName.length = 1 ∧
        variableName ∉ ["i", "j", "k", "x", "y", "z"] then
      [{ id := file.path ++ "_" ++ toString lineNumber ++ "_naming",
         title := "Poor Variable Naming",
         description := "Variable " ++ squote.toString ++ variableName ++ squote.toString ++
           " has a non-descriptive name",
         category := .maintainability, severity := .low,
         file := file.path, line := lineNumber,
         codeSnippet := getCodeSnippet lines lineNumber,
         recommendation := "Use descriptive variable names that clearly indicate their purpose.",
         rule := "descriptive-naming" }]
    else []

/-- Filter of `analyzeDuplication`: trimmed lines longer than 20 characters
that are not comment lines. -/
def qualifiesDup (t : List Char) : Bool :=
  decide (t.length > 20) && !(List.isPrefixOf "//".data t) && !(List.isPrefixOf "*".data t)

/-- Append a line number to the group of `key` in the insertion-ordered line
map (`Map.get(...).push(...)` after `Map.set(key, [])` on a miss). -/
def dupInsert : List (List Char × List ℕ) → List Char → ℕ → List (List Char × List ℕ)
  | [], key, n => [(key, [n])]
  | (k, v) :: rest, key, n =>
    if k = key then (k, v ++ [n]) :: rest else (k, v) :: dupInsert rest key n

/-- The `lines.forEach` loop of `analyzeDuplication`: build the map from
trimmed line text to 1-based occurrence line numbers. -/
def dupBuild : List (List Char) → ℕ → List (List Char × List ℕ) →
    List (List Char × List ℕ)
  | [], _, m => m
  | l :: ls, idx, m =>
    let t := trimChars l
    dupBuild ls (idx + 1) (if qualifiesDup t then dupInsert m t (idx + 1) else m)

/-- Comma-joined rendering of line numbers (`lineNumbers.join(", ")`). -/
def commaJoin : List ℕ → String
  | [] => ""
  | [n] => toString n
  | n :: ns => toString n ++ ", " ++ commaJoin ns

/-- `analyzeDuplication`: one finding per group of more than one identical
long non-comment line, at the first occurrence. -/
def analyzeDuplication (file : SrcFile) : List Finding :=
  let lines := splitOnChar nlChar file.content.data
  (dupBuild lines 0 []).flatMap fun g =>
    if g.2.length > 1 then
      [{ id := file.path ++ "_duplication_" ++ toString (g.2.headD 0),
         title := "Code Duplication",
         description := "Identical code found on lines " ++ commaJoin g.2,
         category := .maintainability, severity := .medium,
         file := file.path, line := g.2.headD 0,
         codeSnippet := String.mk g.1,
         recommendation := "Extract duplicated code into a reusable function or constant.",
         rule := "no-duplication" }]
    else []

/-- `analyzeFile`: security rules, then quality rules, then the complexity,
naming and duplication heuristics. -/
def analyzeFile (file : SrcFile) : List Finding :=
  securityFindingsOf file ++ qualityFindingsOf file ++
    analyzeComplexity file ++ analyzeNaming file ++ analyzeDuplication file

/-- Lowercased extension used for the `languages` counter:
`file.name.split(".").pop()?.toLowerCase()`, skipped when falsy (the empty
string).  `split` always returns a nonempty array, so a name without a dot
yields the whole lowercased name. -/
def extKeyOf (name : String) : Option String :=
  let e := ((splitOnChar '.' name.data).getLastD []).map Char.toLower
  if e = [] then none else some (String.mk e)

/-- Increment the counter for `k` in the insertion-ordered language map
(`languages[ext] = (languages[ext] || 0) + 1`). -/
def langBump : List (String × ℕ) → String → List (String × ℕ)
  | [], k => [(k, 1)]
  | (k0, v) :: rest, k =>
    if k0 = k then (k0, v + 1) :: rest else (k0, v) :: langBump rest k

/-- Language-counter update for one file. -/
def langStep (langs : List (String × ℕ)) (name : String) : List (String × ℕ) :=
  match extKeyOf name with
  | some ext => langBump langs ext
  | none => langs

/-- Substring search, as in JavaScript `String.prototype.includes`. -/
def hasSub (p : List Char) : List Char → Bool
  | [] => List.isPrefixOf p []
  | c :: cs => List.isPrefixOf p (c :: cs) || hasSub p cs

/-- Test-file detection: `name.includes("test") || name.includes("spec")`
(case-sensitive substring search). -/
def isTestName (name : String) : Bool :=
  hasSub "test".data name.data || hasSub "spec".data name.data

/-- Metrics update of the `analyzeFiles` loop body for one file. -/
def metricsStep (m : CodeMetrics) (file : SrcFile) : CodeMetrics :=
  { m with
    totalLines := m.totalLines + (splitOnChar nlChar file.content.data).length,
    languages := langStep m.languages file.name,
    testFiles := m.testFiles + (if isTestName file.name then 1 else 0),
    complexity := m.complexity + countRe keywordRe file.content.data }

/-- The `for (const file of files)` loop of `analyzeFiles`, accumulating
findings and metrics. -/
def analyzeLoop : List SrcFile → List Finding × CodeMetrics →
    List Finding × CodeMetrics
  | [], acc => acc
  | f :: fs, acc => analyzeLoop fs (acc.1 ++ analyzeFile f, metricsStep acc.2 f)

/-- Severity tally step of `analyzeSecurityFindings`
(`counts[finding.severity]++`). -/
def sevBump (s : SecurityAnalysis) : Severity → SecurityAnalysis
  | .critical => { s with critical := s.critical + 1 }
  | .high => { s with high := s.high + 1 }
  | .medium => { s with medium := s.medium + 1 }
  | .low => { s with low := s.low + 1 }

/-- Loop of `analyzeSecurityFindings` over the security findings: tally the
severity and, when the originating rule is found by title, append a
vulnerability record carrying its CWE id. -/
def secLoop : List Finding → SecurityAnalysis → SecurityAnalysis
  | [], acc => acc
  | f :: fs, acc =>
    let acc1 := sevBump acc f.severity
    let acc2 :=
      match securityPatterns.find? (fun p => p.title == f.title) with
      | some p =>
        { acc1 with vulnerabilities := acc1.vulnerabilities ++
            [{ title := f.title, description := f.description, severity := f.severity,
               file := f.file, line := f.line, cweId := p.cweId,
               recommendation := f.recommendation }] }
      | none => acc1
    secLoop fs acc2

/-- Initial counters object of `analyzeSecurityFindings`. -/
def secInit : SecurityAnalysis :=
  { critical := 0, high := 0, medium := 0, low := 0, vulnerabilities := [] }

/-- `analyzeSecurityFindings(findings)`. -/
def analyzeSecurityFindings (findings : List Finding) : SecurityAnalysis :=
  secLoop (findings.filter (fun f => f.category == Category.security)) secInit

/-- `analyzeCoverage(files, metrics)`: the mock coverage numbers.  The
ambient `Math.random()` is modelled by the stream `rng`, consumed in source
evaluation order (three draws per file, then three for the aggregate
lines/functions/branches figures). -/
def analyzeCoverage (files : List SrcFile) (metrics : CodeMetrics)
    (rng : ℕ → ℚ) : CoverageAnalysis :=
  let testShare := jsDivNat metrics.testFiles metrics.totalFiles
  let baseCoverage := jsMinC (jsMaxC (jsMulC testShare 100) 30) 95
  let filesCoverage := files.enum.map fun e =>
    { path := e.2.path,
      coverage := jsFloor (jsAdd baseCoverage ((rng (3 * e.1) - 1/2) * 30)),
      lines := jsFloor (jsAdd baseCoverage ((rng (3 * e.1 + 1) - 1/2) * 25)),
      functions := jsFloor (jsAdd baseCoverage ((rng (3 * e.1 + 2) - 1/2) * 20)) }
  let n := files.length
  { overall := jsFloor baseCoverage,
    lines := jsFloor (jsAdd baseCoverage ((rng (3 * n) - 1/2) * 10)),
    functions := jsFloor (jsAdd baseCoverage ((rng (3 * n + 1) - 1/2) * 15)),
    branches := jsFloor (jsAdd baseCoverage ((rng (3 * n + 2) - 1/2) * 20)),
    files := filesCoverage }

/-- Initial metrics of `analyzeFiles`. -/
def initMetrics (files : List SrcFile) : CodeMetrics :=
  { totalLines := 0, totalFiles := files.length, languages := [],
    complexity := 0, duplicateLines := 0, testFiles := 0 }

/-- `analyzeFiles(files)`: scan every file, accumulate metrics, then derive
the security and coverage summaries. -/
def analyzeFiles (files : List SrcFile) (rng : ℕ → ℚ) : AnalysisResult :=
  let res := analyzeLoop files ([], initMetrics files)
  { findings := res.1, metrics := res.2,
    security := analyzeSecurityFindings res.1,
    coverage := analyzeCoverage files res.2 rng }

/-- The `analyzeFiles` loop under JavaScript exception semantics: the
per-file analyzer may throw, and the loop body contains no `try`/`catch`, so
a thrown error propagates immediately. -/
def analyzeLoopE (analyzer : SrcFile → Except String (List Finding)) :
    List SrcFile → List Finding × CodeMetrics →
    Except String (List Finding × CodeMetrics)
  | [], acc => .ok acc
  | f :: fs, acc =>
    match analyzer f with
    | .error e => .error e
    | .ok fileFindings => analyzeLoopE analyzer fs (acc.1 ++ fileFindings, metricsStep acc.2 f)

/-- `analyzeFiles` under JavaScript exception semantics, parameterized by
the per-file analyzer. -/
def analyzeFilesE (analyzer : SrcFile → Except String (List Finding))
    (files : List SrcFile) (rng : ℕ → ℚ) : Except String AnalysisResult :=
  match analyzeLoopE analyzer files ([], initMetrics files) with
  | .error e => .error e
  | .ok res =>
    .ok { findings := res.1, metrics := res.2,
          security := analyzeSecurityFindings res.1,
          coverage := analyzeCoverage files res.2 rng }

/-! Concrete input fixtures used by the scenario claims. -/

/-- Single-quote as a one-character string. -/
def sq : String := squote.toString

/-- The end-to-end scenario file of the specification. -/
def fileA : SrcFile :=
  { name := "a.js", path := "a.js",
    content := "eval(" ++ sq ++ "2+2" ++ sq ++ ")\nconsole.log(1)\n" }

/-- A file whose content contains a `Math.random()` call. -/
def fileB : SrcFile :=
  { name := "b.js", path := "b.js", content := "x = Math.random()" }

/-- A file whose content merely ends in the letters `Math.Random` (no call). -/
def fileB2 : SrcFile :=
  { name := "b2.js", path := "b2.js", content := "x = Math.Random" }

/-- A file declaring `function foo` whose body contains exactly 11
complexity indicators (5 `if`, 5 `&&`, 1 `?`). -/
def fileC3 : SrcFile :=
  { name := "c.js", path := "c.js",
    content := "function foo() \x7b if(a&&b)\x7b\x7d if(c&&d)\x7b\x7d if(e&&f)\x7b\x7d if(g&&h)\x7b\x7d if(m&&n)\x7b\x7d p?q:r \x7d" }

/-- The duplicated line of the duplication-detection scenario. -/
def dupLine : String := "this is a sufficiently long duplicate line of code"

/-- A 7-line file with `dupLine` at lines 3 and 7 and short lines elsewhere. -/
def fileC8 : SrcFile :=
  { name := "d.js", path := "d.js",
    content := "aa\nbb\n" ++ dupLine ++ "\ncc\ndd\nee\n" ++ dupLine }

/-- A file whose name contains no dot. -/
def fileReadme : SrcFile := { name := "README", path := "README", content := "x" }

/-- Harmless input file for the error-propagation scenario. -/
def goodA : SrcFile := { name := "good1.js", path := "good1.js", content := "" }

/-- Input file on which `badAnalyzer` throws. -/
def badF : SrcFile := { name := "bad.js", path := "bad.js", content := "" }

/-- Second harmless input file, after the failing one. -/
def goodB : SrcFile := { name := "good2.js", path := "good2.js", content := "" }

/-- Per-file analyzer that raises an error on `bad.js` and otherwise behaves
exactly as `analyzeFile`: a stand-in for `analyzeFile` raising a regex
execution error on one file of the run. -/
def badAnalyzer (f : SrcFile) : Except String (List Finding) :=
  if f.name = "bad.js" then Except.error "regex failure" else Except.ok (analyzeFile f)

/-- Severity-indexed view of the four counter fields. -/
def sevCount (s : SecurityAnalysis) : Severity → ℕ
  | .critical => s.critical
  | .high => s.high
  | .medium => s.medium
  | .low => s.low

/-- Lookup in the insertion-ordered language counter map. -/
def listLookup : List (String × ℕ) → String → Option ℕ
  | [], _ => none
  | (k0, v) :: rest, k => if k0 = k then some v else listLookup rest k

/-- Number of input files whose language key is `k`. -/
def extCount (files : List SrcFile) (k : String) : ℕ :=
  (files.filter (fun f => extKeyOf f.name == some k)).length

/-- Keys of the duplication line map, in insertion order. -/
def dupKeys (m : List (List Char × List ℕ)) : List (List Char) := m.map Prod.fst

/-- Lookup in the duplication line map. -/
def dupLookup : List (List Char × List ℕ) → List Char → Option (List ℕ)
  | [], _ => none
  | (k0, v) :: rest, k => if k0 = k then some v else dupLookup rest k

/-- 1-based line numbers (offset by `idx`) of the qualifying lines whose
trimmed text equals `key`. -/
def dupOccFrom : List (List Char) → ℕ → List Char → List ℕ
  | [], _, _ => []
  | l :: ls, idx, key =>
    if qualifiesDup (trimChars l) && (trimChars l == key) then
      (idx + 1) :: dupOccFrom ls (idx + 1) key
    else dupOccFrom ls (idx + 1) key

/-- Qualifying-occurrence test of line `i` of a file against a trimmed key
(the grouping criterion of `analyzeDuplication`). -/
def dupHit (file : SrcFile) (key : List Char) (i : ℕ) : Bool :=
  qualifiesDup (trimChars ((splitOnChar nlChar file.content.data).getD i [])) &&
  (trimChars ((splitOnChar nlChar file.content.data).getD i []) == key)

/-! Projection lemmas: the findings, metrics and security summary of an
`analyzeFiles` result do not involve the random stream. -/

/-- Findings of `analyzeFiles` come from the scan loop alone. -/
theorem analyzeFiles_findings (files : List SrcFile) (rng : ℕ → ℚ) :
    (analyzeFiles files rng).findings = (analyzeLoop files ([], initMetrics files)).1 := rfl

/-- Metrics of `analyzeFiles` come from the scan loop alone. -/
theorem analyzeFiles_metrics (files : List SrcFile) (rng : ℕ → ℚ) :
    (analyzeFiles files rng).metrics = (analyzeLoop files ([], initMetrics files)).2 := rfl

/-- The security summary of `analyzeFiles` is derived from its findings. -/
theorem analyzeFiles_security (files : List SrcFile) (rng : ℕ → ℚ) :
    (analyzeFiles files rng).security =
      analyzeSecurityFindings (analyzeFiles files rng).findings := rfl

/-! The mangled function regex `/function\s+(\w+)\s*$$[^)]*$$\s*{/gi` can
never match: after a `$` anchor succeeds the position is the end of the
input, and the final literal `{` would have to sit past it. -/

/-- Runs starting at or past the end of the input are empty. -/
theorem runLen_of_le (p : Char → Bool) (cs : List Char) (i : ℕ) (h : cs.length ≤ i) :
    runLen p cs i = 0 := by
  unfold runLen
  rw [List.drop_eq_nil_of_le h]
  rfl

/-- Greedy star at or past the end of the input has the single candidate `i`. -/
theorem starEnds_of_le (p : Char → Bool) (cs : List Char) (i : ℕ) (h : cs.length ≤ i) :
    starEnds p cs i = [i] := by
  unfold starEnds
  rw [runLen_of_le p cs i h]
  rfl

/-- A single-character class at or past the end of the input fails. -/
theorem charEnds_of_le (p : Char → Bool) (cs : List Char) (i : ℕ) (h : cs.length ≤ i) :
    charEnds p cs i = [] := by
  unfold charEnds
  rw [List.getElem?_eq_none h]

/-- Sequencing after a `$` anchor: only the end of the input survives. -/
theorem flatMap_anchorEnd (cs : List Char) (i : ℕ) (f : ℕ → List ℕ) :
    (anchorEnd cs i).flatMap f = if i = cs.length then f i else [] := by
  unfold anchorEnd
  split <;> simp

/-- The tail of the function regex after the captured name never matches. -/
theorem functionReTail_eq_nil (cs : List Char) (l : ℕ) :
    ((starEnds jsSpace cs l).flatMap fun m =>
     (anchorEnd cs m).flatMap fun n =>
     (anchorEnd cs n).flatMap fun o =>
     (starEnds (fun c => !(c == ')')) cs o).flatMap fun p =>
     (anchorEnd cs p).flatMap fun q =>
     (anchorEnd cs q).flatMap fun r =>
     (starEnds jsSpace cs r).flatMap fun s =>
     charEnds (fun c => c == lbrace) cs s) = [] := by
  rw [List.flatMap_eq_nil_iff]
  intro m _
  rw [flatMap_anchorEnd]
  split
  case isTrue h =>
    subst h
    rw [flatMap_anchorEnd, if_pos rfl, starEnds_of_le _ _ _ (le_refl _)]
    simp only [List.flatMap_cons, List.flatMap_nil, List.append_nil]
    rw [flatMap_anchorEnd, if_pos rfl, flatMap_anchorEnd, if_pos rfl,
      starEnds_of_le _ _ _ (le_refl _)]
    simp only [List.flatMap_cons, List.flatMap_nil, List.append_nil]
    exact charEnds_of_le _ _ _ (le_refl _)
  case isFalse h => rfl

/-- The mangled function regex never matches at any position. -/
theorem functionReC_eq_nil (cs : List Char) (i : ℕ) : functionReC cs i = [] := by
  unfold functionReC
  simp only [seqCap, seqEnds]
  rw [List.flatMap_eq_nil_iff]
  intro j _
  rw [List.flatMap_eq_nil_iff]
  intro k _
  rw [List.flatMap_eq_nil_iff]
  intro l _
  rw [functionReTail_eq_nil cs l]
  rfl

/-- Scanning with a matcher that never matches yields no matches. -/
theorem scanCapFrom_nil (m : List Char → ℕ → List (ℕ × List Char)) (cs : List Char)
    (h : ∀ i, m cs i = []) : ∀ fuel i, scanCapFrom m cs fuel i = [] := by
  intro fuel
  induction fuel with
  | zero => intro i; rfl
  | succ n ih =>
    intro i
    unfold scanCapFrom
    split
    · rfl
    · rw [h i]
      exact ih (i + 1)

/-- `analyzeComplexity` produces no findings on any file: its function regex
never matches. -/
theorem analyzeComplexity_eq_nil (file : SrcFile) : analyzeComplexity file = [] := by
  have h : scanCaptures functionReC file.content.data = [] :=
    scanCapFrom_nil _ _ (fun i => functionReC_eq_nil _ i) _ 0
  simp [analyzeComplexity, h]

/-! Error propagation: the `analyzeFiles` loop contains no `try`/`catch`, so
an error raised while analyzing one file aborts the entire run. -/

/-- An error from the per-file analyzer propagates out of the loop. -/
theorem analyzeLoopE_error (analyzer : SrcFile → Except String (List Finding))
    (post : List SrcFile) (f : SrcFile) (e : String) (hf : analyzer f = Except.error e) :
    ∀ pre : List SrcFile, (∀ g ∈ pre, ∃ r, analyzer g = Except.ok r) →
      ∀ acc, analyzeLoopE analyzer (pre ++ f :: post) acc = Except.error e := by
  intro pre
  induction pre with
  | nil =>
    intro _ acc
    rw [List.nil_append]
    unfold analyzeLoopE
    rw [hf]
  | cons g gs ih =>
    intro hpre acc
    obtain ⟨r, hr⟩ := hpre g (List.mem_cons_self g gs)
    rw [List.cons_append]
    unfold analyzeLoopE
    rw [hr]
    exact ih (fun x hx => hpre x (List.mem_cons_of_mem g hx)) _

/-! Severity tally and vulnerability-list lemmas for the security summary. -/

/-- Replacing the vulnerability list leaves the counters unchanged. -/
theorem sevCount_set_vulns (a : SecurityAnalysis) (v : List SecurityVulnerability)
    (sev : Severity) : sevCount { a with vulnerabilities := v } sev = sevCount a sev := by
  cases sev <;> rfl

/-- `sevBump` increments exactly the bumped counter. -/
theorem sevCount_sevBump (a : SecurityAnalysis) (s sev : Severity) :
    sevCount (sevBump a s) sev = sevCount a sev + if s = sev then 1 else 0 := by
  cases s <;> cases sev <;> simp [sevBump, sevCount]

/-- `sevBump` leaves the vulnerability list unchanged. -/
theorem sevBump_vulns (a : SecurityAnalysis) (s : Severity) :
    (sevBump a s).vulnerabilities = a.vulnerabilities := by
  cases s <;> rfl

/-- Each severity counter of the security loop counts the findings of that
severity. -/
theorem secLoop_sevCount (sev : Severity) (l : List Finding) (acc : SecurityAnalysis) :
    sevCount (secLoop l acc) sev =
      sevCount acc sev + (l.filter (fun f => f.severity == sev)).length := by
  induction l generalizing acc with
  | nil => rfl
  | cons f fs ih =>
    unfold secLoop
    simp only []
    rw [ih]
    split
    · rw [sevCount_set_vulns, sevCount_sevBump, List.filter_cons]
      by_cases h : f.severity = sev
      · simp [h]
        omega
      · simp [h]
    · rw [sevCount_sevBump, List.filter_cons]
      by_cases h : f.severity = sev
      · simp [h]
        omega
      · simp [h]

/-- When every processed finding has a catalog rule of the same title, the
security loop appends exactly one vulnerability record per finding. -/
theorem secLoop_vulns_length (l : List Finding) (acc : SecurityAnalysis)
    (h : ∀ f ∈ l, (securityPatterns.find? (fun p => p.title == f.title)).isSome) :
    (secLoop l acc).vulnerabilities.length = acc.vulnerabilities.length + l.length := by
  induction l generalizing acc with
  | nil => rfl
  | cons f fs ih =>
    obtain ⟨p, hp⟩ := Option.isSome_iff_exists.mp (h f (List.mem_cons_self f fs))
    unfold secLoop
    simp only [hp]
    rw [ih _ (fun x hx => h x (List.mem_cons_of_mem f hx))]
    simp [sevBump_vulns]
    omega

/-- Every finding has exactly one severity, so the four severity filters
partition any finding list. -/
theorem sev_partition (l : List Finding) :
    (l.filter (fun f => f.severity == Severity.critical)).length +
    (l.filter (fun f => f.severity == Severity.high)).length +
    (l.filter (fun f => f.severity == Severity.medium)).length +
    (l.filter (fun f => f.severity == Severity.low)).length = l.length := by
  induction l with
  | nil => rfl
  | cons f fs ih =>
    cases hs : f.severity <;> simp [List.filter_cons, hs] <;> omega

/-! Provenance of findings: which sub-analyzer each finding comes from. -/

/-- Findings of `analyzeLoop` are the per-file findings in input order. -/
theorem analyzeLoop_findings (files : List SrcFile) :
    ∀ acc, (analyzeLoop files acc).1 = acc.1 ++ files.flatMap analyzeFile := by
  induction files with
  | nil => intro acc; simp [analyzeLoop]
  | cons f fs ih =>
    intro acc
    unfold analyzeLoop
    rw [ih]
    simp

/-- Every security-rule finding carries category `security` and the title of
its originating catalog rule. -/
theorem securityFindingsOf_mem (file : SrcFile) (fd : Finding)
    (h : fd ∈ securityFindingsOf file) :
    fd.category = Category.security ∧ ∃ p ∈ securityPatterns, fd.title = p.title := by
  simp only [securityFindingsOf, List.mem_flatMap, List.mem_map] at h
  obtain ⟨p, hp, idx, hidx, rfl⟩ := h
  exact ⟨rfl, p, hp, rfl⟩

/-- Every quality-rule finding carries category `quality` and the title of
its originating catalog rule. -/
theorem qualityFindingsOf_mem (file : SrcFile) (fd : Finding)
    (h : fd ∈ qualityFindingsOf file) :
    fd.category = Category.quality ∧ ∃ p ∈ qualityPatterns, fd.title = p.title := by
  simp only [qualityFindingsOf, List.mem_flatMap, List.mem_map] at h
  obtain ⟨p, hp, idx, hidx, rfl⟩ := h
  exact ⟨rfl, p, hp, rfl⟩

/-- Every naming finding is titled "Poor Variable Naming" with category
`maintainability`. -/
theorem analyzeNaming_mem (file : SrcFile) (fd : Finding)
    (h : fd ∈ analyzeNaming file) :
    fd.title = "Poor Variable Naming" ∧ fd.category = Category.maintainability := by
  simp only [analyzeNaming, List.mem_flatMap] at h
  obtain ⟨m, hm, hfd⟩ := h
  split at hfd
  · rw [List.mem_singleton] at hfd
    subst hfd
    exact ⟨rfl, rfl⟩
  · exact absurd hfd (List.not_mem_nil fd)

/-- Every duplication finding is titled "Code Duplication" with category
`maintainability`. -/
theorem analyzeDuplication_mem (file : SrcFile) (fd : Finding)
    (h : fd ∈ analyzeDuplication file) :
    fd.title = "Code Duplication" ∧ fd.category = Category.maintainability := by
  simp only [analyzeDuplication, List.mem_flatMap] at h
  obtain ⟨g, hg, hfd⟩ := h
  split at hfd
  · rw [List.mem_singleton] at hfd
    subst hfd
    exact ⟨rfl, rfl⟩
  · exact absurd hfd (List.not_mem_nil fd)

/-- The security-category findings of `analyzeFile` are exactly the
security-rule findings. -/
theorem analyzeFile_security_filter (file : SrcFile) :
    (analyzeFile file).filter (fun f => f.category == Category.security) =
      securityFindingsOf file := by
  unfold analyzeFile
  rw [List.filter_append, List.filter_append, List.filter_append, List.filter_append,
    analyzeComplexity_eq_nil]
  have hsec : (securityFindingsOf file).filter
      (fun f => f.category == Category.security) = securityFindingsOf file :=
    List.filter_eq_self.mpr fun a ha => by
      rw [(securityFindingsOf_mem file a ha).1]; rfl
  have hq : (qualityFindingsOf file).filter
      (fun f => f.category == Category.security) = [] :=
    List.filter_eq_nil_iff.mpr fun a ha => by
      rw [(qualityFindingsOf_mem file a ha).1]; simp
  have hn : (analyzeNaming file).filter
      (fun f => f.category == Category.security) = [] :=
    List.filter_eq_nil_iff.mpr fun a ha => by
      rw [(analyzeNaming_mem file a ha).2]; simp
  have hd : (analyzeDuplication file).filter
      (fun f => f.category == Category.security) = [] :=
    List.filter_eq_nil_iff.mpr fun a ha => by
      rw [(analyzeDuplication_mem file a ha).2]; simp
  rw [hsec, hq, hn, hd]
  simp

/-- Every security-category finding of an `analyzeFiles` run bears the title
of some security catalog rule. -/
theorem analyzeFiles_security_title (files : List SrcFile) (rng : ℕ → ℚ) (fd : Finding)
    (hmem : fd ∈ (analyzeFiles files rng).findings)
    (hcat : fd.category = Category.security) :
    ∃ p ∈ securityPatterns, fd.title = p.title := by
  rw [analyzeFiles_findings, analyzeLoop_findings, List.nil_append, List.mem_flatMap] at hmem
  obtain ⟨file, hfile, hmem⟩ := hmem
  have hfd : fd ∈ (analyzeFile file).filter (fun f => f.category == Category.security) :=
    List.mem_filter.mpr ⟨hmem, by rw [hcat]; rfl⟩
  rw [analyzeFile_security_filter] at hfd
  exact (securityFindingsOf_mem file fd hfd).2

/-- C1 (counterexample): on the scenario input
`[{name: "a.js", path: "a.js", content: "eval(...)\nconsole.log(1)\n"}]` the
returned `metrics.totalLines` is 3, not 2 as claimed: the content splits on
`"\n"` into three segments, the trailing newline contributing an empty one. -/
theorem c1_counterexample :
    (analyzeFiles [fileA] (fun _ => 0)).metrics.totalLines = 3 ∧
    (analyzeFiles [fileA] (fun _ => 0)).metrics.totalLines ≠ 2 := by decide

/-- C1 (amended): on the scenario input, `analyzeFiles` returns exactly one
security finding titled "Use of eval()" at line 1 and exactly one quality
finding titled "Console Statement" at line 2, with `metrics.totalLines = 3`,
`metrics.languages = {js: 1}` and `metrics.testFiles = 0`, for every random
stream. -/
theorem c1_scenario (rng : ℕ → ℚ) :
    ((analyzeFiles [fileA] rng).findings.filter
        (fun fd => fd.title == "Use of eval()")).map
        (fun fd => (fd.category, fd.line)) = [(Category.security, 1)] ∧
    ((analyzeFiles [fileA] rng).findings.filter
        (fun fd => fd.title == "Console Statement")).map
        (fun fd => (fd.category, fd.line)) = [(Category.quality, 2)] ∧
    (analyzeFiles [fileA] rng).metrics.totalLines = 3 ∧
    (analyzeFiles [fileA] rng).metrics.languages = [("js", 1)] ∧
    (analyzeFiles [fileA] rng).metrics.testFiles = 0 := by
  rw [analyzeFiles_findings, analyzeFiles_metrics]
  decide

/-- C2 (code bug): a file containing the call `Math.random()` receives no
"Weak Random Number Generation" finding, because the pattern
`/Math\.random$$$$/gi` anchors at the end of the input instead of matching
`()`; instead a file merely ending in the letters `Math.Random` (no call)
is flagged. -/
theorem c2_weak_rng_bug :
    (analyzeFile fileB).filter
      (fun fd => fd.title == "Weak Random Number Generation") = [] ∧
    ((analyzeFile fileB2).filter
      (fun fd => fd.title == "Weak Random Number Generation")).map
      (fun fd => fd.line) = [1] := by decide

/-- C3 (code bug): the scenario file declares `function foo` whose content
holds exactly 11 complexity indicators, yet no "High Cyclomatic Complexity"
finding is produced — the function regex
`/function\s+(\w+)\s*$$[^)]*$$\s*{/gi` never matches (see
`functionReC_eq_nil`). -/
theorem c3_complexity_bug :
    countRe indicatorRe fileC3.content.data = 11 ∧
    (analyzeFile fileC3).filter
      (fun fd => fd.title == "High Cyclomatic Complexity") = [] := by decide

/-- C4 (counterexample): with a per-file analyzer that raises an error on the
middle file of three, `analyzeFiles` under exception semantics returns that
error — no result is produced and the error is not caught. -/
theorem c4_counterexample :
    analyzeFilesE badAnalyzer [goodA, badF, goodB] (fun _ => 0) =
      Except.error "regex failure" := rfl

/-- C4 (amended): an error raised while analyzing any file of the input list
propagates out of `analyzeFiles` unchanged, aborting the run — there is no
per-file catch. -/
theorem c4_error_aborts (analyzer : SrcFile → Except String (List Finding))
    (pre post : List SrcFile) (f : SrcFile) (e : String) (rng : ℕ → ℚ)
    (hpre : ∀ g ∈ pre, ∃ r, analyzer g = Except.ok r)
    (hf : analyzer f = Except.error e) :
    analyzeFilesE analyzer (pre ++ f :: post) rng = Except.error e := by
  unfold analyzeFilesE
  rw [analyzeLoopE_error analyzer post f e hf pre hpre _]

/-- C4 (witness): the amended statement applied to the concrete three-file
run with the failing middle file. -/
theorem c4_error_aborts_witness :
    analyzeFilesE badAnalyzer ([goodA] ++ badF :: [goodB]) (fun _ => 0) =
      Except.error "regex failure" :=
  c4_error_aborts badAnalyzer [goodA] [goodB] badF "regex failure" (fun _ => 0)
    (by
      intro g hg
      rw [List.mem_singleton] at hg
      subst hg
      exact ⟨analyzeFile goodA, rfl⟩)
    rfl

/-- C5 (counterexample): on the empty input list the returned coverage is
`NaN` (from `0/0`), not the claimed 0/default value. -/
theorem c5_counterexample :
    (analyzeFiles [] (fun _ => 0)).coverage.overall = JSNum.nan ∧
    JSNum.nan ≠ JSNum.num 0 := by decide

/-- C5 (amended): on the empty input list `analyzeFiles` raises no exception
and returns `totalFiles = 0`, no findings and zero security counts, but the
coverage percentages are `NaN` (propagated from `0/0`), not 0/defaults. -/
theorem c5_empty_input (rng : ℕ → ℚ) :
    analyzeFilesE (fun f => Except.ok (analyzeFile f)) [] rng =
      Except.ok (analyzeFiles [] rng) ∧
    (analyzeFiles [] rng).metrics.totalFiles = 0 ∧
    (analyzeFiles [] rng).findings = [] ∧
    (analyzeFiles [] rng).security.critical = 0 ∧
    (analyzeFiles [] rng).security.high = 0 ∧
    (analyzeFiles [] rng).security.medium = 0 ∧
    (analyzeFiles [] rng).security.low = 0 ∧
    (analyzeFiles [] rng).coverage.overall = JSNum.nan ∧
    (analyzeFiles [] rng).coverage.lines = JSNum.nan ∧
    (analyzeFiles [] rng).coverage.functions = JSNum.nan ∧
    (analyzeFiles [] rng).coverage.branches = JSNum.nan :=
  ⟨rfl, rfl, rfl, rfl, rfl, rfl, rfl, rfl, rfl, rfl, rfl⟩

/-- C6 (counterexample): a file named `README` (no dot) is not skipped: it is
counted under the key `readme` — `split(".").pop()` returns the whole name. -/
theorem c6_counterexample :
    (analyzeFiles [fileReadme] (fun _ => 0)).metrics.languages = [("readme", 1)] ∧
    (analyzeFiles [fileReadme] (fun _ => 0)).metrics.languages ≠ [] := by decide

/-- `langBump` increments exactly the bumped key. -/
theorem listLookup_langBump (m : List (String × ℕ)) (k0 k : String) :
    listLookup (langBump m k0) k =
      if k = k0 then some ((listLookup m k0).getD 0 + 1) else listLookup m k := by
  induction m with
  | nil =>
    by_cases h : k = k0
    · subst h; simp [langBump, listLookup]
    · simp [langBump, listLookup, h, Ne.symm h]
  | cons hd rest ih =>
    obtain ⟨k1, v⟩ := hd
    by_cases h1 : k1 = k0
    · subst h1
      by_cases h : k = k1
      · subst h; simp [langBump, listLookup]
      · simp [langBump, listLookup, h, Ne.symm h]
    · by_cases h : k1 = k
      · subst h
        simp [langBump, listLookup, h1]
      · simp [langBump, listLookup, h1, h, ih]

/-- The language map of the loop is a left fold of `langStep`. -/
theorem analyzeLoop_languages (files : List SrcFile) :
    ∀ acc, (analyzeLoop files acc).2.languages =
      files.foldl (fun l f => langStep l f.name) acc.2.languages := by
  induction files with
  | nil => intro acc; rfl
  | cons f fs ih =>
    intro acc
    unfold analyzeLoop
    rw [ih]
    rfl

/-- A left fold of `langStep` counts, per key, the files mapping to it. -/
theorem foldl_langStep_lookup (files : List SrcFile) :
    ∀ (l : List (String × ℕ)) (k : String),
      listLookup (files.foldl (fun l f => langStep l f.name) l) k =
        match listLookup l k with
        | some v => some (v + extCount files k)
        | none =>
          if extCount files k = 0 then none else some (extCount files k) := by
  induction files with
  | nil =>
    intro l k
    cases h : listLookup l k <;> simp [h, extCount]
  | cons f fs ih =>
    intro l k
    rw [List.foldl_cons, ih]
    unfold langStep
    cases he : extKeyOf f.name with
    | none =>
      have hcnt : extCount (f :: fs) k = extCount fs k := by
        simp [extCount, List.filter_cons, he]
      rw [hcnt]
    | some e =>
      by_cases hk : e = k
      · subst hk
        have hcnt : extCount (f :: fs) e = extCount fs e + 1 := by
          simp [extCount, List.filter_cons, he]
        rw [listLookup_langBump, if_pos rfl, hcnt]
        cases hl : listLookup l e <;> simp [hl] <;> omega
      · have hcnt : extCount (f :: fs) k = extCount fs k := by
          simp [extCount, List.filter_cons, he, hk]
        rw [listLookup_langBump, if_neg (fun hh => hk hh.symm), hcnt]

/-- C6 (amended): in every `analyzeFiles` result, `metrics.languages` maps
the key of each file — the lowercased segment after the last dot of its
name, which is the whole lowercased name when there is no dot, skipped only
when that segment is empty — to the number of files bearing that key, and
holds no other key. -/
theorem c6_languages (files : List SrcFile) (rng : ℕ → ℚ) (k : String) :
    listLookup (analyzeFiles files rng).metrics.languages k =
      if extCount files k = 0 then none else some (extCount files k) := by
  rw [analyzeFiles_metrics, analyzeLoop_languages, foldl_langStep_lookup]
  rfl

/-- C9: two `analyzeFiles` runs on the same input list produce identical
findings, total line counts, language counts, test-file counts and
complexity, whatever the two random streams — only coverage consumes
randomness. -/
theorem c9_two_runs_agree (files : List SrcFile) (r1 r2 : ℕ → ℚ) :
    (analyzeFiles files r1).findings = (analyzeFiles files r2).findings ∧
    (analyzeFiles files r1).metrics.totalLines =
      (analyzeFiles files r2).metrics.totalLines ∧
    (analyzeFiles files r1).metrics.languages =
      (analyzeFiles files r2).metrics.languages ∧
    (analyzeFiles files r1).metrics.testFiles =
      (analyzeFiles files r2).metrics.testFiles ∧
    (analyzeFiles files r1).metrics.complexity =
      (analyzeFiles files r2).metrics.complexity :=
  ⟨rfl, rfl, rfl, rfl, rfl⟩

/-! Duplication-map lemmas: the insertion-ordered line map of
`analyzeDuplication` groups 1-based line numbers by trimmed line text. -/

/-- `dupInsert` appends to exactly the inserted key. -/
theorem dupLookup_dupInsert (m : List (List Char × List ℕ)) (key : List Char) (n : ℕ)
    (k : List Char) :
    dupLookup (dupInsert m key n) k =
      if k = key then some ((dupLookup m key).getD [] ++ [n]) else dupLookup m k := by
  induction m with
  | nil =>
    by_cases h : k = key
    · subst h; simp [dupInsert, dupLookup]
    · simp [dupInsert, dupLookup, h, Ne.symm h]
  | cons hd rest ih =>
    obtain ⟨k1, v⟩ := hd
    by_cases h1 : k1 = key
    · subst h1
      by_cases h : k = k1
      · subst h; simp [dupInsert, dupLookup]
      · simp [dupInsert, dupLookup, h, Ne.symm h]
    · by_cases h : k1 = k
      · subst h
        simp [dupInsert, dupLookup, h1]
      · simp [dupInsert, dupLookup, h1, h, ih]

/-- Unfolding equation of `dupInsert` on a matching head. -/
theorem dupInsert_cons_pos (k1 : List Char) (v : List ℕ)
    (rest : List (List Char × List ℕ)) (n : ℕ) :
    dupInsert ((k1, v) :: rest) k1 n = (k1, v ++ [n]) :: rest := by
  unfold dupInsert
  rw [if_pos rfl]

/-- Unfolding equation of `dupInsert` on a non-matching head. -/
theorem dupInsert_cons_neg (k1 key : List Char) (v : List ℕ)
    (rest : List (List Char × List ℕ)) (n : ℕ) (h : ¬ k1 = key) :
    dupInsert ((k1, v) :: rest) key n = (k1, v) :: dupInsert rest key n := by
  simp only [dupInsert]
  rw [if_neg h]

/-- Keys after a `dupInsert` are the old keys plus possibly the new one. -/
theorem mem_dupKeys_dupInsert (m : List (List Char × List ℕ)) (key : List Char) (n : ℕ)
    (x : List Char) :
    x ∈ dupKeys (dupInsert m key n) ↔ x ∈ dupKeys m ∨ x = key := by
  induction m with
  | nil => simp [dupInsert, dupKeys]
  | cons hd rest ih =>
    obtain ⟨k1, v⟩ := hd
    by_cases h1 : k1 = key
    · subst h1
      rw [dupInsert_cons_pos]
      simp only [dupKeys, List.map_cons, List.mem_cons]
      tauto
    · rw [dupInsert_cons_neg k1 key v rest n h1]
      simp only [dupKeys, List.map_cons, List.mem_cons, ih]
      tauto

/-- `dupInsert` preserves distinctness of the keys. -/
theorem dupKeys_dupInsert_nodup (m : List (List Char × List ℕ)) (key : List Char) (n : ℕ)
    (h : (dupKeys m).Nodup) : (dupKeys (dupInsert m key n)).Nodup := by
  induction m with
  | nil => simp [dupInsert, dupKeys]
  | cons hd rest ih =>
    obtain ⟨k1, v⟩ := hd
    rw [dupKeys, List.map_cons, List.nodup_cons] at h
    by_cases h1 : k1 = key
    · subst h1
      rw [dupInsert_cons_pos, dupKeys, List.map_cons, List.nodup_cons]
      exact h
    · rw [dupInsert_cons_neg k1 key v rest n h1, dupKeys, List.map_cons,
        List.nodup_cons]
      refine ⟨?_, ih h.2⟩
      intro hmem
      rcases (mem_dupKeys_dupInsert rest key n k1).mp hmem with hh | hh
      · exact h.1 hh
      · exact h1 hh

/-- The duplication build preserves distinctness of the keys. -/
theorem dupBuild_keys_nodup (ls : List (List Char)) :
    ∀ (idx : ℕ) (m : List (List Char × List ℕ)),
      (dupKeys m).Nodup → (dupKeys (dupBuild ls idx m)).Nodup := by
  induction ls with
  | nil => intro idx m h; exact h
  | cons l ls ih =>
    intro idx m h
    simp only [dupBuild]
    split
    · exact ih _ _ (dupKeys_dupInsert_nodup _ _ _ h)
    · exact ih _ _ h

/-- Lookup characterization of the duplication build: each key holds its
prior occurrences followed by the qualifying occurrences of the scanned
lines. -/
theorem dupLookup_dupBuild (ls : List (List Char)) :
    ∀ (idx : ℕ) (m : List (List Char × List ℕ)) (key : List Char),
      dupLookup (dupBuild ls idx m) key =
        match dupLookup m key with
        | some v => some (v ++ dupOccFrom ls idx key)
        | none =>
          if dupOccFrom ls idx key = [] then none
          else some (dupOccFrom ls idx key) := by
  induction ls with
  | nil =>
    intro idx m key
    cases h : dupLookup m key <;> simp [h, dupOccFrom, dupBuild]
  | cons l ls ih =>
    intro idx m key
    unfold dupBuild dupOccFrom
    cases hq : qualifiesDup (trimChars l) with
    | false =>
      simp only [hq, Bool.false_and, if_neg (Bool.false_ne_true), Bool.false_eq_true,
        if_false]
      exact ih (idx + 1) m key
    | true =>
      cases ht : (trimChars l == key) with
      | false =>
        simp only [hq, ht, Bool.and_false, Bool.false_eq_true, if_false, if_true,
          Bool.true_eq_false]
        rw [ih (idx + 1) (dupInsert m (trimChars l) (idx + 1)) key,
          dupLookup_dupInsert]
        have hne : ¬ key = trimChars l := fun hh =>
          (Bool.false_ne_true) (ht ▸ (by rw [hh]; exact (beq_self_eq_true _)))
        rw [if_neg hne]
      | true =>
        have hteq : trimChars l = key := by
          have := ht
          rwa [beq_iff_eq] at this
        simp only [hq, ht, Bool.and_true, if_true, Bool.true_and]
        rw [ih (idx + 1) (dupInsert m (trimChars l) (idx + 1)) key, hteq,
          dupLookup_dupInsert, if_pos rfl]
        cases hl : dupLookup m key with
        | some v => simp [hl]
        | none => simp [hl]

/-- A successful lookup exhibits a map entry. -/
theorem mem_of_dupLookup (m : List (List Char × List ℕ)) (k : List Char) (v : List ℕ)
    (h : dupLookup m k = some v) : (k, v) ∈ m := by
  induction m with
  | nil => exact absurd h (by simp [dupLookup])
  | cons hd rest ih =>
    obtain ⟨k0, v0⟩ := hd
    unfold dupLookup at h
    split at h
    case isTrue heq =>
      injection h with h2
      subst heq
      subst h2
      exact List.mem_cons_self _ _
    case isFalse heq => exact List.mem_cons_of_mem _ (ih h)

/-- With distinct keys, every map entry is found by lookup. -/
theorem dupLookup_of_mem (m : List (List Char × List ℕ))
    (hnd : (dupKeys m).Nodup) (k : List Char) (v : List ℕ)
    (h : (k, v) ∈ m) : dupLookup m k = some v := by
  induction m with
  | nil => exact absurd h (List.not_mem_nil _)
  | cons hd rest ih =>
    obtain ⟨k0, v0⟩ := hd
    rw [dupKeys, List.map_cons, List.nodup_cons] at hnd
    rcases List.mem_cons.mp h with heq | hmem
    · injection heq with h1 h2
      subst h1
      subst h2
      simp [dupLookup]
    · have hk : ¬ k0 = k := by
        intro hh
        subst hh
        exact hnd.1 (List.mem_map.mpr ⟨(k0, v), hmem, rfl⟩)
      rw [dupLookup, if_neg hk]
      exact ih hnd.2 hmem

/-- Occurrence lists as a filter of the index range. -/
theorem dupOccFrom_eq_filter (ls : List (List Char)) (key : List Char) :
    ∀ idx, dupOccFrom ls idx key =
      ((List.range ls.length).filter (fun i =>
        qualifiesDup (trimChars (ls.getD i [])) &&
        (trimChars (ls.getD i []) == key))).map (fun i => idx + i + 1) := by
  induction ls with
  | nil => intro idx; rfl
  | cons l ls ih =>
    intro idx
    have e1 : List.filter ((fun i =>
        qualifiesDup (trimChars ((l :: ls).getD i [])) &&
        (trimChars ((l :: ls).getD i []) == key)) ∘ Nat.succ) (List.range ls.length) =
        List.filter (fun i => qualifiesDup (trimChars (ls.getD i [])) &&
          (trimChars (ls.getD i []) == key)) (List.range ls.length) :=
      List.filter_congr fun x _ => rfl
    have e2 : List.map ((fun i => idx + i + 1) ∘ Nat.succ)
        (List.filter (fun i => qualifiesDup (trimChars (ls.getD i [])) &&
          (trimChars (ls.getD i []) == key)) (List.range ls.length)) =
        List.map (fun i => (idx + 1) + i + 1)
        (List.filter (fun i => qualifiesDup (trimChars (ls.getD i [])) &&
          (trimChars (ls.getD i []) == key)) (List.range ls.length)) :=
      List.map_congr_left fun x _ => by simp only [Function.comp_apply]; omega
    rw [List.length_cons, List.range_succ_eq_map, List.filter_cons]
    unfold dupOccFrom
    rw [ih (idx + 1)]
    by_cases hc : (qualifiesDup (trimChars l) && (trimChars l == key)) = true
    · have hc0 : (qualifiesDup (trimChars ((l :: ls).getD 0 [])) &&
          (trimChars ((l :: ls).getD 0 []) == key)) = true := hc
      rw [if_pos hc, if_pos hc0, List.map_cons]
      congr 1
      rw [List.filter_map, List.map_map, e1, e2]
    · have hc0 : ¬ (qualifiesDup (trimChars ((l :: ls).getD 0 [])) &&
          (trimChars ((l :: ls).getD 0 []) == key)) = true := hc
      rw [if_neg hc, if_neg hc0]
      rw [List.filter_map, List.map_map, e1, e2]

/-- A flat map collapsing to one entry. -/
theorem flatMap_eq_singleton_of {α β : Type} (M : List α) (f : α → List β)
    (e : α) (x : β) (hmem : e ∈ M) (hnd : M.Nodup) (hfe : f e = [x])
    (hother : ∀ a ∈ M, a ≠ e → f a = []) : M.flatMap f = [x] := by
  induction M with
  | nil => exact absurd hmem (List.not_mem_nil _)
  | cons a rest ih =>
    rw [List.flatMap_cons]
    rcases List.mem_cons.mp hmem with rfl | hmem2
    · rw [hfe]
      have hrest : rest.flatMap f = [] := List.flatMap_eq_nil_iff.mpr fun b hb =>
        hother b (List.mem_cons_of_mem _ hb)
          (fun hbe => (List.nodup_cons.mp hnd).1 (hbe ▸ hb))
      rw [hrest, List.append_nil]
    · have ha : f a = [] := hother a (List.mem_cons_self _ _)
        (fun hae => (List.nodup_cons.mp hnd).1 (hae ▸ hmem2))
      rw [ha, List.nil_append]
      exact ih hmem2 (List.nodup_cons.mp hnd).2
        (fun b hb hbe => hother b (List.mem_cons_of_mem _ hb) hbe)

/-- Titles of the security catalog, for disambiguation from heuristics. -/
theorem securityPatterns_titles (p : SecurityRule) (hp : p ∈ securityPatterns) :
    p.title ∈ ["Use of eval()", "Potential XSS via innerHTML",
      "Use of document.write()", "Potential SQL Injection", "Hardcoded Password",
      "Weak Random Number Generation"] := by
  simp only [securityPatterns, List.mem_cons, List.not_mem_nil, or_false] at hp
  rcases hp with rfl | rfl | rfl | rfl | rfl | rfl <;> simp

/-- Titles of the quality catalog, for disambiguation from heuristics. -/
theorem qualityPatterns_titles (p : QualityRule) (hp : p ∈ qualityPatterns) :
    p.title ∈ ["Console Statement", "Debugger Statement", "TODO/FIXME Comment"] := by
  simp only [qualityPatterns, List.mem_cons, List.not_mem_nil, or_false] at hp
  rcases hp with rfl | rfl | rfl <;> simp

/-- The "Code Duplication"-titled findings of `analyzeFile` are exactly the
duplication findings: no other sub-analyzer uses that title. -/
theorem analyzeFile_dup_filter (file : SrcFile) :
    (analyzeFile file).filter (fun fd => fd.title == "Code Duplication") =
      analyzeDuplication file := by
  unfold analyzeFile
  rw [List.filter_append, List.filter_append, List.filter_append, List.filter_append,
    analyzeComplexity_eq_nil]
  have hs : (securityFindingsOf file).filter
      (fun fd => fd.title == "Code Duplication") = [] :=
    List.filter_eq_nil_iff.mpr fun a ha => by
      obtain ⟨-, p, hp, ht⟩ := securityFindingsOf_mem file a ha
      have hmem := securityPatterns_titles p hp
      rw [ht]
      simp only [List.mem_cons, List.not_mem_nil, or_false] at hmem
      rcases hmem with h | h | h | h | h | h <;> rw [h] <;> decide
  have hq : (qualityFindingsOf file).filter
      (fun fd => fd.title == "Code Duplication") = [] :=
    List.filter_eq_nil_iff.mpr fun a ha => by
      obtain ⟨-, p, hp, ht⟩ := qualityFindingsOf_mem file a ha
      have hmem := qualityPatterns_titles p hp
      rw [ht]
      simp only [List.mem_cons, List.not_mem_nil, or_false] at hmem
      rcases hmem with h | h | h <;> rw [h] <;> decide
  have hn : (analyzeNaming file).filter
      (fun fd => fd.title == "Code Duplication") = [] :=
    List.filter_eq_nil_iff.mpr fun a ha => by
      rw [(analyzeNaming_mem file a ha).1]
      decide
  have hd2 : (analyzeDuplication file).filter
      (fun fd => fd.title == "Code Duplication") = analyzeDuplication file :=
    List.filter_eq_self.mpr fun a ha => by
      rw [(analyzeDuplication_mem file a ha).1]
      decide
  rw [hs, hq, hn, hd2]
  simp

/-- C8: in any file whose lines 3 and 7 both trim to the scenario duplicate
line, and in which no other qualifying trimmed line (longer than 20
characters, not starting with `//` or `*`) repeats, `analyzeFile` emits
exactly one "Code Duplication" finding: category maintainability, severity
medium, line 3, with a description listing occurrences 3 and 7. -/
theorem c8_duplication (file : SrcFile)
    (hlen : 6 < (splitOnChar nlChar file.content.data).length)
    (h3 : trimChars ((splitOnChar nlChar file.content.data).getD 2 []) = dupLine.data)
    (h7 : trimChars ((splitOnChar nlChar file.content.data).getD 6 []) = dupLine.data)
    (hnorep : ∀ i j : ℕ, i < j → j < (splitOnChar nlChar file.content.data).length →
      qualifiesDup (trimChars ((splitOnChar nlChar file.content.data).getD i [])) = true →
      trimChars ((splitOnChar nlChar file.content.data).getD i []) =
        trimChars ((splitOnChar nlChar file.content.data).getD j []) →
      i = 2 ∧ j = 6) :
    (analyzeFile file).filter (fun fd => fd.title == "Code Duplication") =
      [{ id := file.path ++ "_duplication_" ++ "3",
         title := "Code Duplication",
         description := "Identical code found on lines 3, 7",
         category := Category.maintainability, severity := Severity.medium,
         file := file.path, line := 3, codeSnippet := dupLine,
         recommendation := "Extract duplicated code into a reusable function or constant.",
         rule := "no-duplication" }] := by
  rw [analyzeFile_dup_filter]
  have hqualS : qualifiesDup dupLine.data = true := by decide
  have hchar : ∀ i, i < (splitOnChar nlChar file.content.data).length →
      (dupHit file dupLine.data i = true ↔ (i = 2 ∨ i = 6)) := by
    intro i hi
    constructor
    · intro hp
      rw [dupHit, Bool.and_eq_true, beq_iff_eq] at hp
      obtain ⟨hq, ht⟩ := hp
      by_contra hne
      push_neg at hne
      rcases Nat.lt_trichotomy i 2 with hlt | heq | hgt
      · exact hne.1 (hnorep i 2 hlt (by omega) hq (by rw [ht, h3])).1
      · exact hne.1 heq
      · exact hne.2 (hnorep 2 i hgt hi (by rw [h3]; exact hqualS) (by rw [h3, ht])).2
    · intro hi2
      rcases hi2 with rfl | rfl
      · rw [dupHit, Bool.and_eq_true, beq_iff_eq]
        exact ⟨by rw [h3]; exact hqualS, h3⟩
      · rw [dupHit, Bool.and_eq_true, beq_iff_eq]
        exact ⟨by rw [h7]; exact hqualS, h7⟩
  have hocc : dupOccFrom (splitOnChar nlChar file.content.data) 0 dupLine.data = [3, 7] := by
    rw [dupOccFrom_eq_filter]
    show (((List.range (splitOnChar nlChar file.content.data).length).filter
      (dupHit file dupLine.data)).map (fun i => 0 + i + 1)) = [3, 7]
    have hsplit : (splitOnChar nlChar file.content.data).length =
        7 + ((splitOnChar nlChar file.content.data).length - 7) := by omega
    rw [hsplit, List.range_add, List.filter_append, List.map_append]
    have bfalse : ∀ i, i < (splitOnChar nlChar file.content.data).length →
        ¬(i = 2 ∨ i = 6) → dupHit file dupLine.data i = false := by
      intro i hi hn
      cases hb2 : dupHit file dupLine.data i with
      | false => rfl
      | true => exact absurd ((hchar i hi).mp hb2) hn
    have b0 : dupHit file dupLine.data 0 = false := bfalse 0 (by omega) (by omega)
    have b1 : dupHit file dupLine.data 1 = false := bfalse 1 (by omega) (by omega)
    have b2 : dupHit file dupLine.data 2 = true := (hchar 2 (by omega)).mpr (Or.inl rfl)
    have b3 : dupHit file dupLine.data 3 = false := bfalse 3 (by omega) (by omega)
    have b4 : dupHit file dupLine.data 4 = false := bfalse 4 (by omega) (by omega)
    have b5 : dupHit file dupLine.data 5 = false := bfalse 5 (by omega) (by omega)
    have b6 : dupHit file dupLine.data 6 = true := (hchar 6 (by omega)).mpr (Or.inr rfl)
    have hr7 : List.range 7 = [0, 1, 2, 3, 4, 5, 6] := by decide
    have hpart1 : (List.range 7).filter (dupHit file dupLine.data) = [2, 6] := by
      rw [hr7]
      simp [List.filter_cons, b0, b1, b2, b3, b4, b5, b6]
    have hpart2 : ((List.range ((splitOnChar nlChar file.content.data).length - 7)).map
        (fun x => 7 + x)).filter (dupHit file dupLine.data) = [] := by
      rw [List.filter_eq_nil_iff]
      intro a ha
      rw [List.mem_map] at ha
      obtain ⟨x, hx, rfl⟩ := ha
      intro hp
      rw [List.mem_range] at hx
      rcases (hchar (7 + x) (by omega)).mp hp with h | h <;> omega
    rw [hpart1, hpart2]
    decide
  have hocc1 : ∀ key, key ≠ dupLine.data →
      (dupOccFrom (splitOnChar nlChar file.content.data) 0 key).length ≤ 1 := by
    intro key hks
    rw [dupOccFrom_eq_filter]
    show (((List.range (splitOnChar nlChar file.content.data).length).filter
      (dupHit file key)).map (fun i => 0 + i + 1)).length ≤ 1
    rw [List.length_map]
    by_contra hgt
    push_neg at hgt
    have hnd : ((List.range (splitOnChar nlChar file.content.data).length).filter
        (dupHit file key)).Nodup := (List.nodup_range _).filter _
    cases hlq : (List.range (splitOnChar nlChar file.content.data).length).filter
        (dupHit file key) with
    | nil => rw [hlq] at hgt; simp at hgt
    | cons a tail =>
      cases tail with
      | nil => rw [hlq] at hgt; simp at hgt
      | cons b rest =>
        rw [hlq] at hnd
        have hab : a ≠ b := fun hh =>
          (List.nodup_cons.mp hnd).1 (hh ▸ List.mem_cons_self b rest)
        have hamem : a ∈ (List.range (splitOnChar nlChar file.content.data).length).filter
            (dupHit file key) := by rw [hlq]; exact List.mem_cons_self _ _
        have hbmem : b ∈ (List.range (splitOnChar nlChar file.content.data).length).filter
            (dupHit file key) := by
          rw [hlq]; exact List.mem_cons_of_mem _ (List.mem_cons_self _ _)
        obtain ⟨haR, hQa⟩ := List.mem_filter.mp hamem
        obtain ⟨hbR, hQb⟩ := List.mem_filter.mp hbmem
        rw [List.mem_range] at haR hbR
        rw [dupHit, Bool.and_eq_true, beq_iff_eq] at hQa hQb
        rcases Nat.lt_or_ge a b with hab2 | hab2
        · obtain ⟨ha2, hb6⟩ := hnorep a b hab2 hbR hQa.1 (hQa.2.trans hQb.2.symm)
          subst ha2
          exact hks (hQa.2.symm.trans h3)
        · have hab3 : b < a := by omega
          obtain ⟨hb2, ha6⟩ := hnorep b a hab3 haR hQb.1 (hQb.2.trans hQa.2.symm)
          subst hb2
          exact hks (hQb.2.symm.trans h3)
  have hnodupK : (dupKeys (dupBuild (splitOnChar nlChar file.content.data) 0 [])).Nodup :=
    dupBuild_keys_nodup _ 0 [] (by simp [dupKeys])
  have hlook : dupLookup (dupBuild (splitOnChar nlChar file.content.data) 0 [])
      dupLine.data = some [3, 7] := by
    rw [dupLookup_dupBuild]
    rw [hocc]
    simp [dupLookup]
  have hmemE : (dupLine.data, [3, 7]) ∈ dupBuild (splitOnChar nlChar file.content.data) 0 [] :=
    mem_of_dupLookup _ _ _ hlook
  simp only [analyzeDuplication]
  refine flatMap_eq_singleton_of _ _ (dupLine.data, [3, 7]) _ hmemE
    (List.Nodup.of_map Prod.fst hnodupK) rfl ?_
  intro a ha hne
  obtain ⟨k, v⟩ := a
  have hlk := dupLookup_of_mem _ hnodupK k v ha
  rw [dupLookup_dupBuild] at hlk
  simp only [dupLookup] at hlk
  by_cases hk : k = dupLine.data
  · subst hk
    rw [hocc] at hlk
    rw [if_neg (show ¬([3, 7] : List ℕ) = [] by simp)] at hlk
    injection hlk with hv
    exact absurd (by rw [← hv]) hne
  · have hle := hocc1 k hk
    split at hlk
    · exact absurd hlk (by simp)
    · injection hlk with hv
      have hv1 : v.length ≤ 1 := by rw [← hv]; exact hle
      have hcond : ¬ ((k, v).2.length > 1) := by simp; omega
      rw [if_neg hcond]

/-- C8 (witness): the concrete 7-line file with the duplicate line at lines
3 and 7. -/
theorem c8_duplication_witness :
    (analyzeFile fileC8).filter (fun fd => fd.title == "Code Duplication") =
      [{ id := fileC8.path ++ "_duplication_" ++ "3",
         title := "Code Duplication",
         description := "Identical code found on lines 3, 7",
         category := Category.maintainability, severity := Severity.medium,
         file := fileC8.path, line := 3, codeSnippet := dupLine,
         recommendation := "Extract duplicated code into a reusable function or constant.",
         rule := "no-duplication" }] := by
  have H : ∀ j, j < 7 → ∀ i, i < j →
      (qualifiesDup (trimChars ((splitOnChar nlChar fileC8.content.data).getD i [])) = true →
       trimChars ((splitOnChar nlChar fileC8.content.data).getD i []) =
         trimChars ((splitOnChar nlChar fileC8.content.data).getD j []) →
       i = 2 ∧ j = 6) := by decide
  have hlen7 : (splitOnChar nlChar fileC8.content.data).length = 7 := by decide
  exact c8_duplication fileC8 (by decide) (by decide) (by decide)
    (fun i j hij hj hq he => H j (by omega) i hij hq he)

/-- Helper for C7: each severity counter of `analyzeSecurityFindings` counts
the security-category findings of that severity. -/
theorem analyzeSecurityFindings_sevCount (l : List Finding) (sev : Severity) :
    sevCount (analyzeSecurityFindings l) sev =
      (l.filter (fun f => f.category == Category.security && f.severity == sev)).length := by
  unfold analyzeSecurityFindings
  rw [secLoop_sevCount]
  have h0 : sevCount secInit sev = 0 := by cases sev <;> rfl
  rw [h0, Nat.zero_add, List.filter_filter]
  exact congrArg List.length
    (List.filter_congr fun x _ => Bool.and_comm (x.severity == sev)
      (x.category == Category.security))

/-- C7: in every `analyzeFiles` result the four severity counters of the
security summary equal the number of findings with category `security` and
the corresponding severity. -/
theorem c7_security_counts (files : List SrcFile) (rng : ℕ → ℚ) :
    (analyzeFiles files rng).security.critical =
      ((analyzeFiles files rng).findings.filter (fun f =>
        f.category == Category.security && f.severity == Severity.critical)).length ∧
    (analyzeFiles files rng).security.high =
      ((analyzeFiles files rng).findings.filter (fun f =>
        f.category == Category.security && f.severity == Severity.high)).length ∧
    (analyzeFiles files rng).security.medium =
      ((analyzeFiles files rng).findings.filter (fun f =>
        f.category == Category.security && f.severity == Severity.medium)).length ∧
    (analyzeFiles files rng).security.low =
      ((analyzeFiles files rng).findings.filter (fun f =>
        f.category == Category.security && f.severity == Severity.low)).length := by
  rw [analyzeFiles_security]
  exact ⟨analyzeSecurityFindings_sevCount _ Severity.critical,
    analyzeSecurityFindings_sevCount _ Severity.high,
    analyzeSecurityFindings_sevCount _ Severity.medium,
    analyzeSecurityFindings_sevCount _ Severity.low⟩

/-- C10: every security-category finding bears the title of a catalog rule,
so the vulnerability list of the security summary holds exactly one record
per security finding: its length is the sum of the four severity counters. -/
theorem c10_vulnerability_list (files : List SrcFile) (rng : ℕ → ℚ) :
    (((analyzeFiles files rng).findings.filter
        (fun f => f.category == Category.security)).all
      (fun f => securityPatterns.any (fun p => p.title == f.title)) = true) ∧
    (analyzeFiles files rng).security.vulnerabilities.length =
      (analyzeFiles files rng).security.critical +
      (analyzeFiles files rng).security.high +
      (analyzeFiles files rng).security.medium +
      (analyzeFiles files rng).security.low := by
  have htitle : ∀ f ∈ (analyzeFiles files rng).findings.filter
      (fun f => f.category == Category.security),
      ∃ p ∈ securityPatterns, f.title = p.title := by
    intro f hf
    rw [List.mem_filter] at hf
    exact analyzeFiles_security_title files rng f hf.1 (by
      have := hf.2
      simpa using this)
  constructor
  · rw [List.all_eq_true]
    intro f hf
    obtain ⟨p, hp, ht⟩ := htitle f hf
    rw [List.any_eq_true]
    exact ⟨p, hp, by simp [ht]⟩
  · rw [analyzeFiles_security]
    have hsome : ∀ f ∈ (analyzeFiles files rng).findings.filter
        (fun f => f.category == Category.security),
        (securityPatterns.find? (fun p => p.title == f.title)).isSome := by
      intro f hf
      obtain ⟨p, hp, ht⟩ := htitle f hf
      rw [List.find?_isSome]
      exact ⟨p, hp, by simp [ht]⟩
    have hv : (analyzeSecurityFindings (analyzeFiles files rng).findings).vulnerabilities.length =
        ((analyzeFiles files rng).findings.filter
          (fun f => f.category == Category.security)).length := by
      unfold analyzeSecurityFindings
      rw [secLoop_vulns_length _ _ hsome]
      simp [secInit]
    have h1 := analyzeSecurityFindings_sevCount (analyzeFiles files rng).findings Severity.critical
    have h2 := analyzeSecurityFindings_sevCount (analyzeFiles files rng).findings Severity.high
    have h3 := analyzeSecurityFindings_sevCount (analyzeFiles files rng).findings Severity.medium
    have h4 := analyzeSecurityFindings_sevCount (analyzeFiles files rng).findings Severity.low
    simp only [sevCount] at h1 h2 h3 h4
    rw [hv, h1, h2, h3, h4]
    have hpart := sev_partition ((analyzeFiles files rng).findings.filter
      (fun f => f.category == Category.security))
    rw [List.filter_filter, List.filter_filter, List.filter_filter,
      List.filter_filter] at hpart
    have hcomm : ∀ sev : Severity,
        (analyzeFiles files rng).findings.filter
          (fun a => (a.severity == sev) && (a.category == Category.security)) =
        (analyzeFiles files rng).findings.filter
          (fun a => (a.category == Category.security) && (a.severity == sev)) :=
      fun sev => List.filter_congr fun x _ => Bool.and_comm _ _
    rw [hcomm Severity.critical, hcomm Severity.high, hcomm Severity.medium,
      hcomm Severity.low] at hpart
    omega

end Sniff
